import Mathlib

/-!
Verification of the MineAgent learning core (trajectory store, return/advantage
estimation, PPO update loop, ICM curiosity module) against its specification.

The Python source is shallowly embedded: tensors become lists over an ordered
field (`ℚ` where the properties are purely arithmetic, `ℝ` where logarithms and
Gaussian densities appear), `deque(maxlen=N)` becomes a list with drop-on-append
semantics, raising code returns `Except String`, and the black-box neural
collaborators (actor, critic, forward/inverse dynamics) are abstract function
parameters, matching the spec's treatment of them as external differentiable
function approximators.
-/

namespace MineAgent

/-! ### `discount_cumsum` (src/mineagent/utils.py)

`discount_cumsum(x, d) = scipy.signal.lfilter([1], [1, -d], x[::-1], axis=0)[::-1]`.

`lfilter([1], [1, -d], z)` is the IIR filter `y[n] = z[n] + d * y[n-1]` with
zero initial condition; the source applies it to the reversed input and
reverses the output. -/

/-- One-pole IIR filter `y[n] = z[n] + d * y[n-1]`, carrying the previous
output `p` (initial condition 0 at the top-level call), embedding
`scipy.signal.lfilter([1], [1, -d], z)`. -/
def lfilter_iir {α : Type} [Field α] (d : α) : α → List α → List α
  | _, [] => []
  | p, z :: zs => (z + d * p) :: lfilter_iir d (z + d * p) zs

/-- Embedding of `discount_cumsum` from `src/mineagent/utils.py`: run the
filter over the reversed sequence and reverse the result. -/
def discount_cumsum {α : Type} [Field α] (x : List α) (d : α) : List α :=
  (lfilter_iir d 0 x.reverse).reverse

theorem lfilter_iir_length {α : Type} [Field α] (d : α) (p : α) (z : List α) :
    (lfilter_iir d p z).length = z.length := by
  induction z generalizing p with
  | nil => rfl
  | cons a zs ih => simp [lfilter_iir, ih]

theorem discount_cumsum_length {α : Type} [Field α] (x : List α) (d : α) :
    (discount_cumsum x d).length = x.length := by
  simp [discount_cumsum, lfilter_iir_length]

theorem lfilter_iir_append_single {α : Type} [Field α] (d : α) (p : α)
    (l : List α) (z : α) :
    lfilter_iir d p (l ++ [z]) =
      lfilter_iir d p l ++ [z + d * (lfilter_iir d p l).getLastD p] := by
  induction l generalizing p with
  | nil => simp [lfilter_iir]
  | cons a l ih =>
      simp only [List.cons_append, lfilter_iir, List.getLastD_cons, List.append_eq]
      rw [ih]

theorem headD_reverse {α : Type} (l : List α) (dflt : α) :
    l.reverse.headD dflt = l.getLastD dflt := by
  rw [List.headD_eq_head?, List.head?_reverse, List.getLastD_eq_getLast?]

/-- The defining recurrence of the source implementation, in head form:
`y = (x0 + d * head (dcs xs d)) :: dcs xs d`. -/
theorem discount_cumsum_cons {α : Type} [Field α] (x : α) (xs : List α) (d : α) :
    discount_cumsum (x :: xs) d =
      (x + d * (discount_cumsum xs d).headD 0) :: discount_cumsum xs d := by
  unfold discount_cumsum
  rw [List.reverse_cons, lfilter_iir_append_single, List.reverse_append]
  simp [headD_reverse]

theorem discount_cumsum_getD_rec {α : Type} [Field α] (x : List α) (d : α)
    (t : ℕ) (h : t + 1 < x.length) :
    (discount_cumsum x d).getD t 0 =
      x.getD t 0 + d * (discount_cumsum x d).getD (t + 1) 0 := by
  induction x generalizing t with
  | nil => simp at h
  | cons a xs ih =>
      rw [discount_cumsum_cons]
      cases t with
      | zero =>
          have hxs : xs ≠ [] := by
            intro hempty
            rw [hempty] at h
            simp at h
          have hlen : 0 < (discount_cumsum xs d).length := by
            rw [discount_cumsum_length]
            exact List.length_pos.mpr hxs
          simp only [List.getD_cons_zero, List.getD_cons_succ]
          congr 1
          congr 1
          cases hd : discount_cumsum xs d with
          | nil => rw [hd] at hlen; simp at hlen
          | cons b bs => simp [hd]
      | succ t =>
          simp only [List.getD_cons_succ]
          exact ih t (by simpa using h)

theorem discount_cumsum_getLast {α : Type} [Field α] (x : List α) (d : α) :
    (discount_cumsum x d).getLast? = x.getLast? := by
  induction x with
  | nil => rfl
  | cons a xs ih =>
      rw [discount_cumsum_cons]
      cases hxs : xs with
      | nil => simp [hxs, discount_cumsum, lfilter_iir]
      | cons b bs =>
          subst hxs
          cases hd : discount_cumsum (b :: bs) d with
          | nil =>
              have := discount_cumsum_length (b :: bs) d
              rw [hd] at this
              simp at this
          | cons c cs =>
              rw [List.getLast?_cons_cons, ← hd, ih, List.getLast?_cons_cons]

/-- C1. `discount_cumsum(x, d)` satisfies the exact linear recurrence
`y[T-1] = x[T-1]`, `y[t] = x[t] + d * y[t+1]` (same length as the input, last
element preserved), and on the input `[1,2,3,4]` returns `[10,9,7,4]` at
`d = 1`, `[3.25,4.5,5,4]` at `d = 0.5`, and `[1,2,3,4]` at `d = 0`. -/
theorem claim_c1_discount_cumsum (x : List ℚ) (d : ℚ) :
    (discount_cumsum x d).length = x.length
    ∧ (discount_cumsum x d).getLast? = x.getLast?
    ∧ (∀ t : ℕ, t + 1 < x.length →
        (discount_cumsum x d).getD t 0 =
          x.getD t 0 + d * (discount_cumsum x d).getD (t + 1) 0)
    ∧ discount_cumsum [(1 : ℚ), 2, 3, 4] 1 = [10, 9, 7, 4]
    ∧ discount_cumsum [(1 : ℚ), 2, 3, 4] (1/2) = [13/4, 9/2, 5, 4]
    ∧ discount_cumsum [(1 : ℚ), 2, 3, 4] 0 = [1, 2, 3, 4] := by
  refine ⟨discount_cumsum_length x d, discount_cumsum_getLast x d,
    fun t ht => discount_cumsum_getD_rec x d t ht, ?_, ?_, ?_⟩
  · norm_num [discount_cumsum, lfilter_iir]
  · norm_num [discount_cumsum, lfilter_iir]
  · norm_num [discount_cumsum, lfilter_iir]

/-- Witness for C1: the recurrence instantiated on `[1,2,3,4]`, `d = 1/2`,
`t = 1`: `y[1] = x[1] + d * y[2]`, i.e. `9/2 = 2 + (1/2) * 5`. -/
theorem claim_c1_discount_cumsum_witness :
    (1 : ℕ) + 1 < ([(1 : ℚ), 2, 3, 4]).length
    ∧ (discount_cumsum [(1 : ℚ), 2, 3, 4] (1/2)).getD 1 0 =
        ([(1 : ℚ), 2, 3, 4]).getD 1 0
          + (1/2) * (discount_cumsum [(1 : ℚ), 2, 3, 4] (1/2)).getD 2 0 :=
  ⟨by norm_num,
    (claim_c1_discount_cumsum [(1 : ℚ), 2, 3, 4] (1/2)).2.2.1 1 (by norm_num)⟩

/-! ### `TrajectoryBuffer` (src/mineagent/memory/trajectory.py)

Six parallel `deque(maxlen=max_buffer_size)` buffers. `deque.append` on a full
deque discards the leftmost element; `dequeAppend` embeds that: append on the
right, then drop from the left anything beyond the capacity. -/

/-- `deque(maxlen=N).append(x)`: append right, evict left past capacity `N`. -/
def dequeAppend {β : Type} (N : ℕ) (l : List β) (x : β) : List β :=
  (l ++ [x]).drop (l.length + 1 - N)

/-- The trajectory store: six parallel aligned sequences.  `F` is the type of
feature embeddings, `A` of action vectors, `L` of log-probability vectors, and
`α` the scalar field of rewards/values. -/
structure TrajectoryBuffer (F A L α : Type) where
  max_buffer_size : ℕ
  features_buffer : List F
  actions_buffer : List A
  rewards_buffer : List α
  intrinsic_rewards_buffer : List α
  values_buffer : List α
  log_probs_buffer : List L

/-- `TrajectoryBuffer(max_buffer_size=N)`: all six deques start empty. -/
def TrajectoryBuffer.empty (F A L α : Type) (N : ℕ) : TrajectoryBuffer F A L α :=
  ⟨N, [], [], [], [], [], []⟩

/-- One conceptual per-step record (the aligned row across the six buffers). -/
structure TrajectoryRecord (F A L α : Type) where
  visual_features : F
  action : A
  reward : α
  intrinsic_reward : α
  value : α
  log_prob : L

/-- Embedding of `TrajectoryBuffer.store`: append the step's fields to each
of the six deques. -/
def TrajectoryBuffer.store {F A L α : Type} (b : TrajectoryBuffer F A L α)
    (r : TrajectoryRecord F A L α) : TrajectoryBuffer F A L α :=
  { b with
    features_buffer := dequeAppend b.max_buffer_size b.features_buffer r.visual_features
    actions_buffer := dequeAppend b.max_buffer_size b.actions_buffer r.action
    rewards_buffer := dequeAppend b.max_buffer_size b.rewards_buffer r.reward
    intrinsic_rewards_buffer :=
      dequeAppend b.max_buffer_size b.intrinsic_rewards_buffer r.intrinsic_reward
    values_buffer := dequeAppend b.max_buffer_size b.values_buffer r.value
    log_probs_buffer := dequeAppend b.max_buffer_size b.log_probs_buffer r.log_prob }

/-- A sequence of `store` calls, oldest first. -/
def TrajectoryBuffer.storeAll {F A L α : Type} (b : TrajectoryBuffer F A L α) :
    List (TrajectoryRecord F A L α) → TrajectoryBuffer F A L α
  | [] => b
  | r :: rs => (b.store r).storeAll rs

/-- The record at index `i` of the store, reassembled across the six buffers
(`none` when `i` is out of range). -/
def TrajectoryBuffer.recordAt {F A L α : Type} (b : TrajectoryBuffer F A L α)
    (i : ℕ) : Option (TrajectoryRecord F A L α) :=
  match b.features_buffer.get? i, b.actions_buffer.get? i, b.rewards_buffer.get? i,
      b.intrinsic_rewards_buffer.get? i, b.values_buffer.get? i,
      b.log_probs_buffer.get? i with
  | some f, some a, some r, some ir, some v, some lp => some ⟨f, a, r, ir, v, lp⟩
  | _, _, _, _, _, _ => none

/-- `len(buffer)` is the length of the features buffer. -/
def TrajectoryBuffer.size {F A L α : Type} (b : TrajectoryBuffer F A L α) : ℕ :=
  b.features_buffer.length

theorem dequeAppend_length {β : Type} (N : ℕ) (l : List β) (x : β)
    (h : l.length ≤ N) : (dequeAppend N l x).length = min (l.length + 1) N := by
  simp only [dequeAppend, List.length_drop, List.length_append, List.length_cons,
    List.length_nil]
  omega

/-- Pushing a whole list through the deque: the result is the concatenation
with everything before the last `N` elements dropped. -/
theorem dequeAppend_foldl {β : Type} (N : ℕ) (l : List β) (xs : List β)
    (h : l.length ≤ N) :
    xs.foldl (dequeAppend N) l = (l ++ xs).drop (l.length + xs.length - N) := by
  induction xs generalizing l with
  | nil => simp [Nat.sub_eq_zero_of_le h]
  | cons x xs ih =>
      have hlen : (dequeAppend N l x).length = min (l.length + 1) N :=
        dequeAppend_length N l x h
      have hle : (dequeAppend N l x).length ≤ N := by rw [hlen]; omega
      rw [List.foldl_cons, ih _ hle]
      have hcond : l.length + 1 - N ≤ (l ++ [x]).length := by
        simp only [List.length_append, List.length_cons, List.length_nil]
        omega
      have hsplit : dequeAppend N l x ++ xs =
          ((l ++ [x]) ++ xs).drop (l.length + 1 - N) := by
        rw [dequeAppend]
        exact (List.drop_append_of_le_length hcond).symm
      rw [hsplit, List.drop_drop, hlen]
      have harr : l ++ x :: xs = (l ++ [x]) ++ xs := by simp
      rw [harr]
      congr 1
      simp only [List.length_cons]
      omega

theorem storeAll_eq_foldl {F A L α : Type} (b : TrajectoryBuffer F A L α)
    (rs : List (TrajectoryRecord F A L α)) :
    b.storeAll rs = rs.foldl TrajectoryBuffer.store b := by
  induction rs generalizing b with
  | nil => rfl
  | cons r rs ih => rw [TrajectoryBuffer.storeAll, ih, List.foldl_cons]

/-- Each of the six buffers after a run of stores from empty is the projected
record list with everything before the last `N` entries evicted.  `projB`
projects a buffer, `projR` the matching field of a record. -/
theorem storeAll_proj {F A L α β : Type}
    (projB : TrajectoryBuffer F A L α → List β)
    (projR : TrajectoryRecord F A L α → β)
    (hstep : ∀ (b : TrajectoryBuffer F A L α) (r : TrajectoryRecord F A L α),
      projB (b.store r) = dequeAppend b.max_buffer_size (projB b) (projR r))
    (hempty : ∀ N, projB (TrajectoryBuffer.empty F A L α N) = [])
    (N : ℕ) (rs : List (TrajectoryRecord F A L α)) :
    projB ((TrajectoryBuffer.empty F A L α N).storeAll rs) =
      (rs.map projR).drop (rs.length - N) := by
  rw [storeAll_eq_foldl]
  have hmax : ∀ (b : TrajectoryBuffer F A L α) (r : TrajectoryRecord F A L α),
      (b.store r).max_buffer_size = b.max_buffer_size := fun _ _ => rfl
  have key : ∀ (l : List (TrajectoryRecord F A L α)) (b : TrajectoryBuffer F A L α),
      b.max_buffer_size = N → (projB b).length ≤ N →
      projB (l.foldl TrajectoryBuffer.store b) =
        l.foldl (fun acc r => dequeAppend N acc (projR r)) (projB b) := by
    intro l
    induction l with
    | nil => intro b _ _; rfl
    | cons r l ih =>
        intro b hN hlen
        rw [List.foldl_cons, List.foldl_cons]
        have hb : projB (b.store r) = dequeAppend N (projB b) (projR r) := by
          rw [hstep, hN]
        have hms : (b.store r).max_buffer_size = N := by rw [hmax, hN]
        have hlen2 : (projB (b.store r)).length ≤ N := by
          rw [hb, dequeAppend_length N _ _ hlen]; omega
        rw [ih (b.store r) hms hlen2, hb]
  rw [key rs _ rfl (by rw [hempty]; simp)]
  have hmap : ∀ (l : List (TrajectoryRecord F A L α)) (start : List β),
      l.foldl (fun acc r => dequeAppend N acc (projR r)) start =
        (l.map projR).foldl (dequeAppend N) start := by
    intro l
    induction l with
    | nil => intro start; rfl
    | cons r l ih => intro start; rw [List.foldl_cons, List.map_cons, List.foldl_cons, ih]
  rw [hmap, hempty, dequeAppend_foldl N [] _ (by simp)]
  simp

theorem storeAll_features_buffer {F A L α : Type} (N : ℕ)
    (rs : List (TrajectoryRecord F A L α)) :
    ((TrajectoryBuffer.empty F A L α N).storeAll rs).features_buffer =
      (rs.map TrajectoryRecord.visual_features).drop (rs.length - N) :=
  storeAll_proj _ _ (fun _ _ => rfl) (fun _ => rfl) N rs

theorem storeAll_actions_buffer {F A L α : Type} (N : ℕ)
    (rs : List (TrajectoryRecord F A L α)) :
    ((TrajectoryBuffer.empty F A L α N).storeAll rs).actions_buffer =
      (rs.map TrajectoryRecord.action).drop (rs.length - N) :=
  storeAll_proj _ _ (fun _ _ => rfl) (fun _ => rfl) N rs

theorem storeAll_rewards_buffer {F A L α : Type} (N : ℕ)
    (rs : List (TrajectoryRecord F A L α)) :
    ((TrajectoryBuffer.empty F A L α N).storeAll rs).rewards_buffer =
      (rs.map TrajectoryRecord.reward).drop (rs.length - N) :=
  storeAll_proj _ _ (fun _ _ => rfl) (fun _ => rfl) N rs

theorem storeAll_intrinsic_rewards_buffer {F A L α : Type} (N : ℕ)
    (rs : List (TrajectoryRecord F A L α)) :
    ((TrajectoryBuffer.empty F A L α N).storeAll rs).intrinsic_rewards_buffer =
      (rs.map TrajectoryRecord.intrinsic_reward).drop (rs.length - N) :=
  storeAll_proj _ _ (fun _ _ => rfl) (fun _ => rfl) N rs

theorem storeAll_values_buffer {F A L α : Type} (N : ℕ)
    (rs : List (TrajectoryRecord F A L α)) :
    ((TrajectoryBuffer.empty F A L α N).storeAll rs).values_buffer =
      (rs.map TrajectoryRecord.value).drop (rs.length - N) :=
  storeAll_proj _ _ (fun _ _ => rfl) (fun _ => rfl) N rs

theorem storeAll_log_probs_buffer {F A L α : Type} (N : ℕ)
    (rs : List (TrajectoryRecord F A L α)) :
    ((TrajectoryBuffer.empty F A L α N).storeAll rs).log_probs_buffer =
      (rs.map TrajectoryRecord.log_prob).drop (rs.length - N) :=
  storeAll_proj _ _ (fun _ _ => rfl) (fun _ => rfl) N rs

theorem storeAll_size {F A L α : Type} (N : ℕ)
    (rs : List (TrajectoryRecord F A L α)) :
    ((TrajectoryBuffer.empty F A L α N).storeAll rs).size = min rs.length N := by
  rw [TrajectoryBuffer.size, storeAll_features_buffer]
  simp only [List.length_drop, List.length_map]
  omega

/-- After storing the whole of `rs` into an empty capacity-`N` buffer, the
record at index `i` is the record of `rs` at index `rs.length - N + i`
(the `rs.length - N` oldest records were evicted). -/
theorem recordAt_storeAll {F A L α : Type} (N : ℕ)
    (rs : List (TrajectoryRecord F A L α)) (i : ℕ) :
    ((TrajectoryBuffer.empty F A L α N).storeAll rs).recordAt i =
      rs.get? (rs.length - N + i) := by
  rw [TrajectoryBuffer.recordAt, storeAll_features_buffer, storeAll_actions_buffer,
    storeAll_rewards_buffer, storeAll_intrinsic_rewards_buffer, storeAll_values_buffer,
    storeAll_log_probs_buffer]
  cases hr : rs.get? (rs.length - N + i) with
  | none =>
      rw [List.get?_eq_getElem?] at hr
      simp [List.getElem?_drop, List.getElem?_map, hr]
  | some r =>
      rw [List.get?_eq_getElem?] at hr
      simp [List.getElem?_drop, List.getElem?_map, hr]

/-- C6 (amended).  For capacity `N ≥ 1`: the length of the buffer is always
`min (number of stores) N`; after exactly `N` stores the record at index 0 is
the first-ever stored record; after `N + 1` stores the record at index 0 is
the *second*-ever stored record (the oldest was evicted) — so it differs from
the first-ever record exactly when the first two stored records differ. -/
theorem claim_c6_trajectory_fifo {F A L α : Type} (N : ℕ)
    (rs : List (TrajectoryRecord F A L α)) (hN : 1 ≤ N) :
    ((TrajectoryBuffer.empty F A L α N).storeAll rs).size = min rs.length N
    ∧ (rs.length = N →
        ((TrajectoryBuffer.empty F A L α N).storeAll rs).recordAt 0 = rs.head?)
    ∧ (rs.length = N + 1 →
        ((TrajectoryBuffer.empty F A L α N).storeAll rs).recordAt 0 = rs.get? 1) := by
  refine ⟨storeAll_size N rs, ?_, ?_⟩
  · intro hlen
    rw [recordAt_storeAll, hlen, Nat.sub_self, Nat.zero_add, List.get?_zero]
  · intro hlen
    rw [recordAt_storeAll, hlen, Nat.succ_sub (le_refl N), Nat.sub_self, Nat.add_zero]

/-- Counterexample to C6 as stated: with capacity `N = 1` and the *same*
record stored twice, after `N + 1 = 2` stores the record at index 0 still
equals the first-ever stored record, so "after N+1 stores the record at
index 0 no longer equals the first-ever stored record" fails. -/
theorem claim_c6_counterexample :
    ((TrajectoryBuffer.empty ℚ ℚ ℚ ℚ 1).storeAll
        [⟨0, 0, 0, 0, 0, 0⟩, ⟨0, 0, 0, 0, 0, 0⟩]).recordAt 0 =
      some (⟨0, 0, 0, 0, 0, 0⟩ : TrajectoryRecord ℚ ℚ ℚ ℚ) := by
  rw [recordAt_storeAll]
  rfl

/-- Witness for C6 (amended), at capacity 1 with two distinct records: after
2 stores the record at index 0 is the second stored record. -/
theorem claim_c6_trajectory_fifo_witness :
    (1 : ℕ) ≤ 1
    ∧ ((TrajectoryBuffer.empty ℚ ℚ ℚ ℚ 1).storeAll
          [⟨0, 0, 0, 0, 0, 0⟩, ⟨1, 1, 1, 1, 1, 1⟩]).recordAt 0 =
        [(⟨0, 0, 0, 0, 0, 0⟩ : TrajectoryRecord ℚ ℚ ℚ ℚ),
          ⟨1, 1, 1, 1, 1, 1⟩].get? 1 :=
  ⟨le_refl 1,
    (claim_c6_trajectory_fifo 1
        [⟨0, 0, 0, 0, 0, 0⟩, ⟨1, 1, 1, 1, 1, 1⟩] (le_refl 1)).2.2 rfl⟩

/-! ### PPO (src/mineagent/learning/ppo.py)

`torch.stack` on an empty tensor list raises; every other step of
`_finalize_trajectory` is pure elementwise arithmetic.  The actor/critic
networks and their Adam optimizers are black-box collaborators (spec section 6),
so the update phases are abstract state-transformer parameters. -/

/-- Embedding of `torch.stack(list_of_tensors)`: raises on an empty list. -/
def torchStack {β : Type} (l : List β) : Except String (List β) :=
  if l.isEmpty then .error "stack expects a non-empty TensorList" else .ok l

/-- Embedding of the `PPOSample` dataclass. -/
structure PPOSample (F A L α : Type) where
  features : List F
  actions : List A
  returns : List α
  advantages : List α
  log_probabilities : List L

namespace PPO

/-- Embedding of `PPO._finalize_trajectory`:
`features/actions/log_probabilities = buffer[:-1]` (stacked, raising on empty),
`rewards = rewards[1:] + intrinsic_rewards[1:]` elementwise,
`deltas = rewards + discount_factor * values[1:] - values[:-1]`,
`advantages = discount_cumsum(deltas, discount_factor * gae_discount_factor)`,
`returns = discount_cumsum(rewards, discount_factor)`. -/
def finalize_trajectory {F A L α : Type} [Field α]
    (discount_factor gae_discount_factor : α) (data : TrajectoryBuffer F A L α) :
    Except String (PPOSample F A L α) :=
  match torchStack data.features_buffer.dropLast,
      torchStack data.actions_buffer.dropLast,
      torchStack data.log_probs_buffer.dropLast with
  | .error e, _, _ => .error e
  | .ok _, .error e, _ => .error e
  | .ok _, .ok _, .error e => .error e
  | .ok features, .ok actions, .ok log_probabilities =>
      let env_rewards := data.rewards_buffer.drop 1
      let intrinsic_rewards := data.intrinsic_rewards_buffer.drop 1
      let rewards := List.zipWith (fun e i => e + i) env_rewards intrinsic_rewards
      let values := data.values_buffer
      let deltas := List.zipWith (fun rv v0 => rv - v0)
        (List.zipWith (fun r v1 => r + discount_factor * v1) rewards (values.drop 1))
        values.dropLast
      let advantages := discount_cumsum deltas (discount_factor * gae_discount_factor)
      let returns := discount_cumsum rewards discount_factor
      .ok ⟨features, actions, returns, advantages, log_probabilities⟩

/-- Embedding of `PPO.update`: finalize the trajectory, then run the actor
phase and the critic phase on the finalized sample.  The two phases touch only
the optimizer state `st` and the sample, never the trajectory store, which is
returned alongside to express the caller-visible heap after the call. -/
def update {F A L α σ : Type} [Field α]
    (discount_factor gae_discount_factor : α)
    (update_actor update_critic : σ → PPOSample F A L α → σ) (st : σ)
    (trajectory : TrajectoryBuffer F A L α) :
    Except String σ × TrajectoryBuffer F A L α :=
  match finalize_trajectory discount_factor gae_discount_factor trajectory with
  | .error e => (.error e, trajectory)
  | .ok data => (.ok (update_critic (update_actor st data) data), trajectory)

end PPO

/-- Embedding of the mini-batch size computed by `PPO._update_actor`,
`PPO._update_critic` and the two ICM update loops:
`batch_size = buffer_size // train_iters` (plain floor division, no minimum). -/
def mini_batch_size (buffer_size train_iters : ℕ) : ℕ :=
  buffer_size / train_iters

/-- The `PPOSample.get`/`ICMSample.get` generator loop steps
`start_idx := start_idx + batch_size` from 0 and stops once `start_idx ≥ size`;
it therefore yields finitely many batches exactly when some iterate reaches
`size`. -/
def get_terminates (size batch_size : ℕ) : Prop :=
  ∃ k : ℕ, size ≤ k * batch_size

/-- Embedding of the `PPO._update_actor` mini-batch loop.  `σ` is the joint
actor-network/optimizer state, `β` a mini-batch; `compute_actor_loss_kl`
abstracts the `kl` returned by `_compute_actor_loss` and `optim_step` the
`loss.backward(); self.actor_optim.step()` pair.  Per batch: if
`kl > 1.5 * target_kl` the loop breaks *before* the gradient step; otherwise
one optimizer step is applied.  Returns the final state and the number of
optimizer steps applied. -/
def update_actor_loop {σ β α : Type} [LinearOrderedField α] (target_kl : α)
    (compute_actor_loss_kl : σ → β → α) (optim_step : σ → β → σ) :
    σ → List β → σ × ℕ
  | st, [] => (st, 0)
  | st, batch :: batches =>
      if compute_actor_loss_kl st batch > 3 / 2 * target_kl then (st, 0)
      else
        let st' := optim_step st batch
        let rest := update_actor_loop target_kl compute_actor_loss_kl optim_step
          st' batches
        (rest.1, rest.2 + 1)

/-! ### ICM (src/mineagent/learning/icm.py) -/

/-- Embedding of the `ICMSample` dataclass. -/
structure ICMSample (F A : Type) where
  features : List F
  next_features : List F
  actions : List A

namespace ICM

/-- Embedding of `ICM._finalize_trajectory`:
`features = features_buffer[:-1]`, `next_features = features_buffer[1:]`,
`actions = actions_buffer[:-1]`, each stacked (raising on empty). -/
def finalize_trajectory {F A L α : Type} (data : TrajectoryBuffer F A L α) :
    Except String (ICMSample F A) :=
  match torchStack data.features_buffer.dropLast,
      torchStack (data.features_buffer.drop 1),
      torchStack data.actions_buffer.dropLast with
  | .error e, _, _ => .error e
  | .ok _, .error e, _ => .error e
  | .ok _, .ok _, .error e => .error e
  | .ok features, .ok next_features, .ok actions =>
      .ok ⟨features, next_features, actions⟩

/-- Embedding of `ICM.update`: finalize, then run the inverse-dynamics and
forward-dynamics phases (abstract state transformers on the dynamics-model
state `σ`); the trajectory store is returned alongside, untouched. -/
def update {F A L α σ : Type}
    (update_inverse_dynamics update_forward_dynamics : σ → ICMSample F A → σ)
    (st : σ) (data : TrajectoryBuffer F A L α) :
    Except String σ × TrajectoryBuffer F A L α :=
  match finalize_trajectory data with
  | .error e => (.error e, data)
  | .ok sample =>
      (.ok (update_forward_dynamics (update_inverse_dynamics st sample) sample), data)

end ICM

theorem getD_zipWith {β γ δ : Type} (f : β → γ → δ) (l1 : List β) (l2 : List γ)
    (i : ℕ) (d1 : β) (d2 : γ) (d3 : δ) (h1 : i < l1.length) (h2 : i < l2.length) :
    (List.zipWith f l1 l2).getD i d3 = f (l1.getD i d1) (l2.getD i d2) := by
  induction l1 generalizing l2 i with
  | nil => simp at h1
  | cons a l1 ih =>
      cases l2 with
      | nil => simp at h2
      | cons b l2 =>
          cases i with
          | zero => rfl
          | succ i =>
              simp only [List.zipWith_cons_cons, List.getD_cons_succ]
              exact ih l2 i (by simpa using h1) (by simpa using h2)

theorem getD_drop_one {β : Type} (l : List β) (i : ℕ) (d : β) :
    (l.drop 1).getD i d = l.getD (i + 1) d := by
  cases l with
  | nil => rfl
  | cons a l => rfl

theorem getD_dropLast {β : Type} (l : List β) (i : ℕ) (d : β)
    (h : i + 1 < l.length) : l.dropLast.getD i d = l.getD i d := by
  rw [List.getD_eq_getElem?_getD, List.getD_eq_getElem?_getD, List.getElem?_dropLast,
    if_pos (by omega)]

/-- C2. For an aligned trajectory of length `T ≥ 2` (rewards written
`r0 :: rtl` to expose the unused first reward), `PPO._finalize_trajectory`
succeeds and produces a sample with exactly `T - 1` rows whose features,
actions and log-probabilities are the first `T - 1` buffer entries; the
combined reward sequence `R` is `rewards[1..T-1] + intrinsic_rewards[1..T-1]`
elementwise, `returns = discount_cumsum R discount_factor`, the delta series
`D` satisfies `D[t] = R[t] + discount_factor * values[t+1] - values[t]` over
the full values series, `advantages = discount_cumsum D
(discount_factor * gae_discount_factor)`, and replacing the first reward `r0`
by any `r0'` leaves both returns and advantages unchanged. -/
theorem claim_c2_ppo_finalize {F A L : Type} (γ lam : ℚ) (N : ℕ)
    (fs : List F) (as : List A) (r0 : ℚ) (rtl : List ℚ) (irs vs : List ℚ)
    (ls : List L) (hT : 2 ≤ fs.length) (has : as.length = fs.length)
    (hls : ls.length = fs.length) (hrs : rtl.length + 1 = fs.length)
    (hirs : irs.length = fs.length) (hvs : vs.length = fs.length) :
    ∃ (s : PPOSample F A L ℚ) (R D : List ℚ),
      PPO.finalize_trajectory γ lam ⟨N, fs, as, r0 :: rtl, irs, vs, ls⟩ = .ok s
      ∧ s.features = fs.dropLast
      ∧ s.actions = as.dropLast
      ∧ s.log_probabilities = ls.dropLast
      ∧ s.features.length = fs.length - 1
      ∧ R.length = fs.length - 1
      ∧ (∀ i : ℕ, i + 1 < fs.length →
          R.getD i 0 = (r0 :: rtl).getD (i + 1) 0 + irs.getD (i + 1) 0)
      ∧ s.returns = discount_cumsum R γ
      ∧ D.length = fs.length - 1
      ∧ (∀ t : ℕ, t + 1 < fs.length →
          D.getD t 0 = R.getD t 0 + γ * vs.getD (t + 1) 0 - vs.getD t 0)
      ∧ s.advantages = discount_cumsum D (γ * lam)
      ∧ (∀ r0' : ℚ, ∃ s' : PPOSample F A L ℚ,
          PPO.finalize_trajectory γ lam ⟨N, fs, as, r0' :: rtl, irs, vs, ls⟩ = .ok s'
          ∧ s'.returns = s.returns ∧ s'.advantages = s.advantages) := by
  have hfs : fs.dropLast ≠ [] := by
    intro hemp
    have := List.length_dropLast fs
    rw [hemp] at this
    simp at this
    omega
  have hstack : ∀ {β2 : Type} (l : List β2), l ≠ [] → torchStack l = .ok l := by
    intro β2 l hl
    rw [torchStack, if_neg (by simpa using hl)]
  have hfinal : ∀ (rfirst : ℚ),
      PPO.finalize_trajectory γ lam
        (⟨N, fs, as, rfirst :: rtl, irs, vs, ls⟩ : TrajectoryBuffer F A L ℚ) =
      .ok ⟨fs.dropLast, as.dropLast,
        discount_cumsum (List.zipWith (fun e i => e + i) rtl (irs.drop 1)) γ,
        discount_cumsum
          (List.zipWith (fun rv v0 => rv - v0)
            (List.zipWith (fun r v1 => r + γ * v1)
              (List.zipWith (fun e i => e + i) rtl (irs.drop 1)) (vs.drop 1))
            vs.dropLast)
          (γ * lam),
        ls.dropLast⟩ := by
    intro rfirst
    have has2 : as.dropLast ≠ [] := by
      intro hemp
      have := List.length_dropLast as
      rw [hemp] at this
      simp at this
      omega
    have hls2 : ls.dropLast ≠ [] := by
      intro hemp
      have := List.length_dropLast ls
      rw [hemp] at this
      simp at this
      omega
    simp only [PPO.finalize_trajectory, hstack fs.dropLast hfs,
      hstack as.dropLast has2, hstack ls.dropLast hls2, List.drop_succ_cons,
      List.drop_zero]
  refine ⟨_, List.zipWith (fun e i => e + i) rtl (irs.drop 1),
    List.zipWith (fun rv v0 => rv - v0)
      (List.zipWith (fun r v1 => r + γ * v1)
        (List.zipWith (fun e i => e + i) rtl (irs.drop 1)) (vs.drop 1))
      vs.dropLast,
    hfinal r0, rfl, rfl, rfl, ?_, ?_, ?_, rfl, ?_, ?_, rfl, ?_⟩
  · simp [List.length_dropLast]
  · simp only [List.length_zipWith, List.length_drop]
    omega
  · intro i hi
    rw [getD_zipWith (fun e i2 => e + i2) rtl (irs.drop 1) i 0 0 0
      (by omega) (by simp only [List.length_drop]; omega)]
    rw [getD_drop_one, List.getD_cons_succ]
  · simp only [List.length_zipWith, List.length_drop, List.length_dropLast]
    omega
  · intro t ht
    rw [getD_zipWith (fun rv v0 => rv - v0) _ vs.dropLast t 0 0 0
      (by simp only [List.length_zipWith, List.length_drop]; omega)
      (by simp only [List.length_dropLast]; omega)]
    rw [getD_zipWith (fun r v1 => r + γ * v1) _ (vs.drop 1) t 0 0 0
      (by simp only [List.length_zipWith, List.length_drop]; omega)
      (by simp only [List.length_drop]; omega)]
    rw [getD_drop_one, getD_dropLast vs t 0 (by omega)]
  · intro r0'
    exact ⟨_, hfinal r0', rfl, rfl⟩

/-- Witness for C2 at the concrete length-2 trajectory
`features = [10, 20]`, `rewards = [5, 7]`, `intrinsic_rewards = [1, 2]`,
`values = [3, 4]`, `γ = 1/2`, `λ = 1/4`. -/
theorem claim_c2_ppo_finalize_witness :
    2 ≤ ([(10 : ℚ), 20]).length
    ∧ ([(0 : ℚ), 0]).length = ([(10 : ℚ), 20]).length
    ∧ ([(0 : ℚ), 0]).length = ([(10 : ℚ), 20]).length
    ∧ ([(7 : ℚ)]).length + 1 = ([(10 : ℚ), 20]).length
    ∧ ([(1 : ℚ), 2]).length = ([(10 : ℚ), 20]).length
    ∧ ([(3 : ℚ), 4]).length = ([(10 : ℚ), 20]).length
    ∧ ∃ (s : PPOSample ℚ ℚ ℚ ℚ) (R D : List ℚ),
        PPO.finalize_trajectory (1/2) (1/4)
          ⟨9, [10, 20], [0, 0], 5 :: [7], [1, 2], [3, 4], [0, 0]⟩ = .ok s
        ∧ s.features = ([(10 : ℚ), 20]).dropLast
        ∧ s.actions = ([(0 : ℚ), 0]).dropLast
        ∧ s.log_probabilities = ([(0 : ℚ), 0]).dropLast
        ∧ s.features.length = ([(10 : ℚ), 20]).length - 1
        ∧ R.length = ([(10 : ℚ), 20]).length - 1
        ∧ (∀ i : ℕ, i + 1 < ([(10 : ℚ), 20]).length →
            R.getD i 0 = ((5 : ℚ) :: [7]).getD (i + 1) 0
              + ([(1 : ℚ), 2]).getD (i + 1) 0)
        ∧ s.returns = discount_cumsum R (1/2)
        ∧ D.length = ([(10 : ℚ), 20]).length - 1
        ∧ (∀ t : ℕ, t + 1 < ([(10 : ℚ), 20]).length →
            D.getD t 0 = R.getD t 0 + (1/2) * ([(3 : ℚ), 4]).getD (t + 1) 0
              - ([(3 : ℚ), 4]).getD t 0)
        ∧ s.advantages = discount_cumsum D ((1/2) * (1/4))
        ∧ (∀ r0' : ℚ, ∃ s' : PPOSample ℚ ℚ ℚ ℚ,
            PPO.finalize_trajectory (1/2) (1/4)
              ⟨9, [10, 20], [0, 0], r0' :: [7], [1, 2], [3, 4], [0, 0]⟩ = .ok s'
            ∧ s'.returns = s.returns ∧ s'.advantages = s.advantages) :=
  ⟨by norm_num, by norm_num, by norm_num, by norm_num, by norm_num, by norm_num,
    claim_c2_ppo_finalize (1/2) (1/4) 9 [10, 20] [0, 0] 5 [7] [1, 2] [3, 4]
      [0, 0] (by norm_num) (by norm_num) (by norm_num) (by norm_num)
      (by norm_num) (by norm_num)⟩

/-- C3. In the `PPO._update_actor` loop: a mini-batch whose approximate KL
(under the current actor state) exceeds `1.5 * target_kl` receives no
optimizer step and terminates the loop with the state unchanged from before
that batch; consequently, when the first mini-batch is stepped and the
resulting state drives the second batch's KL above `1.5 * target_kl`, exactly
one optimizer step is applied in the whole `update()` call. -/
theorem claim_c3_kl_early_stop {σ β : Type} (target_kl : ℚ)
    (compute_actor_loss_kl : σ → β → ℚ) (optim_step : σ → β → σ) (st : σ) :
    (∀ (batch : β) (batches : List β),
        compute_actor_loss_kl st batch > 3 / 2 * target_kl →
        update_actor_loop target_kl compute_actor_loss_kl optim_step st
          (batch :: batches) = (st, 0))
    ∧ (∀ (b0 b1 : β) (batches : List β),
        ¬ compute_actor_loss_kl st b0 > 3 / 2 * target_kl →
        compute_actor_loss_kl (optim_step st b0) b1 > 3 / 2 * target_kl →
        update_actor_loop target_kl compute_actor_loss_kl optim_step st
          (b0 :: b1 :: batches) = (optim_step st b0, 1)) := by
  constructor
  · intro batch batches hkl
    simp [update_actor_loop, hkl]
  · intro b0 b1 batches h0 h1
    simp [update_actor_loop, h0, h1]

/-- Witness for C3: with threshold `target_kl = 0`, KL read off the state and
a step that increments the state, the first batch passes (`KL = 0`), the
second stops the loop (`KL = 1 > 0`), and exactly one step was applied. -/
theorem claim_c3_kl_early_stop_witness :
    ¬ ((fun (s : ℚ) (_ : ℚ) => s) 0 0 > 3 / 2 * (0 : ℚ))
    ∧ ((fun (s : ℚ) (_ : ℚ) => s) ((fun (s : ℚ) (_ : ℚ) => s + 1) 0 0) 0
        > 3 / 2 * (0 : ℚ))
    ∧ update_actor_loop (0 : ℚ) (fun s _ => s) (fun s _ => s + 1) (0 : ℚ)
        [0, 0] = ((0 : ℚ) + 1, 1) :=
  ⟨by norm_num, by norm_num,
    (claim_c3_kl_early_stop (0 : ℚ) (fun s _ => s) (fun s _ => s + 1) 0).2
      0 0 [] (by norm_num) (by norm_num)⟩

/-- C4 evaluated at the failing input: the code computes the mini-batch size
as plain floor division `buffer_size // train_iters` with *no* minimum of 1;
with a sample of length 1 and 2 configured iterations the batch size is 0,
and the `get` loop (`start_idx += batch_size` from 0 until `start_idx ≥ size`)
never terminates, so the batch sequence is not finite — contradicting the
claimed structural prevention. -/
theorem claim_c4_zero_batch_size :
    mini_batch_size 1 2 = 0 ∧ ¬ get_terminates 1 (mini_batch_size 1 2) := by
  refine ⟨rfl, ?_⟩
  rintro ⟨k, hk⟩
  simp [mini_batch_size] at hk

/-- C5. On a trajectory of length `< 2` (0 or 1 stored steps), both
finalize steps — and hence both `update` entry points — raise the
`torch.stack` empty-list error rather than returning a degenerate sample. -/
theorem claim_c5_minimum_length {F A L σP σI : Type} (γ lam : ℚ)
    (update_actor update_critic : σP → PPOSample F A L ℚ → σP)
    (update_inverse update_forward : σI → ICMSample F A → σI)
    (sP : σP) (sI : σI) (traj : TrajectoryBuffer F A L ℚ)
    (hT : traj.features_buffer.length < 2) :
    PPO.finalize_trajectory γ lam traj =
      .error "stack expects a non-empty TensorList"
    ∧ ICM.finalize_trajectory traj =
      (.error "stack expects a non-empty TensorList" : Except String (ICMSample F A))
    ∧ (PPO.update γ lam update_actor update_critic sP traj).1 =
      .error "stack expects a non-empty TensorList"
    ∧ (ICM.update update_inverse update_forward sI traj).1 =
      .error "stack expects a non-empty TensorList" := by
  have hfs : traj.features_buffer.dropLast = [] := by
    apply List.eq_nil_of_length_eq_zero
    rw [List.length_dropLast]
    omega
  have h1 : PPO.finalize_trajectory γ lam traj =
      .error "stack expects a non-empty TensorList" := by
    rw [PPO.finalize_trajectory, hfs]
    rfl
  have h2 : ICM.finalize_trajectory traj =
      (.error "stack expects a non-empty TensorList" : Except String (ICMSample F A)) := by
    rw [ICM.finalize_trajectory, hfs]
    rfl
  refine ⟨h1, h2, ?_, ?_⟩
  · rw [PPO.update, h1]
  · rw [ICM.update, h2]

/-- Witness for C5: the length-1 trajectory storing a single step. -/
theorem claim_c5_minimum_length_witness :
    (((⟨3, [(0 : ℚ)], [0], [0], [0], [0], [0]⟩ :
        TrajectoryBuffer ℚ ℚ ℚ ℚ)).features_buffer.length < 2)
    ∧ PPO.finalize_trajectory (1/2) (1/4)
        (⟨3, [(0 : ℚ)], [0], [0], [0], [0], [0]⟩ : TrajectoryBuffer ℚ ℚ ℚ ℚ) =
      .error "stack expects a non-empty TensorList"
    ∧ ICM.finalize_trajectory
        (⟨3, [(0 : ℚ)], [0], [0], [0], [0], [0]⟩ : TrajectoryBuffer ℚ ℚ ℚ ℚ) =
      (.error "stack expects a non-empty TensorList" : Except String (ICMSample ℚ ℚ))
    ∧ (PPO.update (1/2) (1/4) (fun (s : Unit) _ => s) (fun s _ => s) ()
        (⟨3, [(0 : ℚ)], [0], [0], [0], [0], [0]⟩ : TrajectoryBuffer ℚ ℚ ℚ ℚ)).1 =
      .error "stack expects a non-empty TensorList"
    ∧ (ICM.update (fun (s : Unit) _ => s) (fun s _ => s) ()
        (⟨3, [(0 : ℚ)], [0], [0], [0], [0], [0]⟩ : TrajectoryBuffer ℚ ℚ ℚ ℚ)).1 =
      .error "stack expects a non-empty TensorList" :=
  ⟨by norm_num,
    (claim_c5_minimum_length (1/2) (1/4) (fun (s : Unit) _ => s) (fun s _ => s)
        (fun (s : Unit) _ => s) (fun s _ => s) () ()
        (⟨3, [(0 : ℚ)], [0], [0], [0], [0], [0]⟩ : TrajectoryBuffer ℚ ℚ ℚ ℚ)
        (by norm_num))⟩

/-- C10. Neither `PPO.update` nor `ICM.update` mutates the trajectory store:
after either call the store — and in particular each of its six parallel
buffers — is exactly what it was before the call.  (In the embedding the
finalize step reads the buffers through `list(...)` copies and the gradient
phases touch only the finalized sample and optimizer state, so the store
passes through unchanged.) -/
theorem claim_c10_update_preserves_store {F A L σP σI : Type} (γ lam : ℚ)
    (update_actor update_critic : σP → PPOSample F A L ℚ → σP)
    (update_inverse update_forward : σI → ICMSample F A → σI)
    (sP : σP) (sI : σI) (traj : TrajectoryBuffer F A L ℚ) :
    (PPO.update γ lam update_actor update_critic sP traj).2 = traj
    ∧ (ICM.update update_inverse update_forward sI traj).2 = traj
    ∧ (PPO.update γ lam update_actor update_critic sP traj).2.features_buffer =
        traj.features_buffer
    ∧ (PPO.update γ lam update_actor update_critic sP traj).2.actions_buffer =
        traj.actions_buffer
    ∧ (PPO.update γ lam update_actor update_critic sP traj).2.rewards_buffer =
        traj.rewards_buffer
    ∧ (PPO.update γ lam update_actor update_critic sP traj).2.intrinsic_rewards_buffer =
        traj.intrinsic_rewards_buffer
    ∧ (PPO.update γ lam update_actor update_critic sP traj).2.values_buffer =
        traj.values_buffer
    ∧ (PPO.update γ lam update_actor update_critic sP traj).2.log_probs_buffer =
        traj.log_probs_buffer
    ∧ (ICM.update update_inverse update_forward sI traj).2.features_buffer =
        traj.features_buffer
    ∧ (ICM.update update_inverse update_forward sI traj).2.actions_buffer =
        traj.actions_buffer
    ∧ (ICM.update update_inverse update_forward sI traj).2.rewards_buffer =
        traj.rewards_buffer
    ∧ (ICM.update update_inverse update_forward sI traj).2.intrinsic_rewards_buffer =
        traj.intrinsic_rewards_buffer
    ∧ (ICM.update update_inverse update_forward sI traj).2.values_buffer =
        traj.values_buffer
    ∧ (ICM.update update_inverse update_forward sI traj).2.log_probs_buffer =
        traj.log_probs_buffer := by
  have h1 : (PPO.update γ lam update_actor update_critic sP traj).2 = traj := by
    cases h : PPO.finalize_trajectory γ lam traj <;> simp [PPO.update, h]
  have h2 : (ICM.update update_inverse update_forward sI traj).2 = traj := by
    cases h : ICM.finalize_trajectory traj (F := F) (A := A) <;> simp [ICM.update, h]
  exact ⟨h1, h2, by rw [h1], by rw [h1], by rw [h1], by rw [h1], by rw [h1],
    by rw [h1], by rw [h2], by rw [h2], by rw [h2], by rw [h2], by rw [h2],
    by rw [h2]⟩

/-! ### Action sampling and joint log-probability (src/mineagent/utils.py)

One batch row of the ten network output distributions: 8 categorical
probability vectors plus a 2-d diagonal Gaussian (`action_dists[8]` the means,
`action_dists[9]` the stds).  Sampling randomness is made explicit: `idx i` is
the index drawn by `torch.multinomial` from the `i`-th categorical, `ε` the
standard-normal noise pair consumed by `rsample()` (`sample = mean + std * ε`).
The transcendental `log` and the constant `log (sqrt (2 * π))` are passed as
parameters so the definitions stay executable; the claim theorems instantiate
them with `Real.log`. -/

/-- One batch row of the 10-tuple of action distributions. -/
structure ActionDists (α : Type) where
  cats : Fin 8 → List α
  mean : α × α
  std : α × α

/-- Embedding of `sample_multinomial` (one batch row): the drawn index cast to
a float, paired with `dist[idx].log()`. -/
def sample_multinomial {α : Type} [LinearOrderedField α] (log : α → α)
    (dist : List α) (idx : ℕ) : α × α :=
  ((idx : α), log (dist.getD idx 0))

/-- Embedding of `torch.distributions.Normal(mean, std).log_prob(x)`:
`-((x - mean)^2) / (2 * std^2) - log std - log (sqrt (2 * π))`; the last
constant is the parameter `log_sqrt_2pi`. -/
def normal_log_prob {α : Type} [LinearOrderedField α] (log : α → α)
    (log_sqrt_2pi : α) (mean std x : α) : α :=
  -((x - mean) ^ 2 / (2 * std ^ 2)) - log std - log_sqrt_2pi

/-- Embedding of `sample_guassian` (source spelling, one batch row):
`rsample()` is `mean + std * ε`, paired with its Gaussian log-density. -/
def sample_guassian {α : Type} [LinearOrderedField α] (log : α → α)
    (log_sqrt_2pi : α) (mean std ε : α) : α × α :=
  (mean + std * ε, normal_log_prob log log_sqrt_2pi mean std (mean + std * ε))

/-- Embedding of `.long()` on a float scalar: truncation to an integer index
(floor then clamp to ℕ; the sampled components are non-negative integers). -/
def tensor_to_long {α : Type} [LinearOrderedField α] [FloorRing α] (x : α) : ℕ :=
  (⌊x⌋).toNat

/-- Embedding of `sample_action` (one batch row): components 0–7 sample the
categoricals, component 8 the x-coordinate Gaussian
(`action_dists[8][:,0], action_dists[9][:,0]`), component 9 the y-coordinate
Gaussian; returns the action vector and the per-component log-probability
vector. -/
def sample_action {α : Type} [LinearOrderedField α] (log : α → α)
    (log_sqrt_2pi : α) (d : ActionDists α) (idx : Fin 8 → ℕ) (ε : α × α) :
    (Fin 10 → α) × (Fin 10 → α) :=
  (fun i =>
    if h : (i : ℕ) < 8 then (sample_multinomial log (d.cats ⟨i, h⟩) (idx ⟨i, h⟩)).1
    else if (i : ℕ) = 8 then (sample_guassian log log_sqrt_2pi d.mean.1 d.std.1 ε.1).1
    else (sample_guassian log log_sqrt_2pi d.mean.2 d.std.2 ε.2).1,
   fun i =>
    if h : (i : ℕ) < 8 then (sample_multinomial log (d.cats ⟨i, h⟩) (idx ⟨i, h⟩)).2
    else if (i : ℕ) = 8 then (sample_guassian log log_sqrt_2pi d.mean.1 d.std.1 ε.1).2
    else (sample_guassian log log_sqrt_2pi d.mean.2 d.std.2 ε.2).2)

/-- Embedding of `joint_logp_action` (one batch row): for each categorical,
gather the probability at the taken index (after `.long()`) and take its log;
for the two continuous coordinates, evaluate the Gaussian log-density at the
taken values; sum all ten contributions. -/
def joint_logp_action {α : Type} [LinearOrderedField α] [FloorRing α]
    (log : α → α) (log_sqrt_2pi : α) (d : ActionDists α) (a : Fin 10 → α) : α :=
  log ((d.cats 0).getD (tensor_to_long (a 0)) 0)
  + log ((d.cats 1).getD (tensor_to_long (a 1)) 0)
  + log ((d.cats 2).getD (tensor_to_long (a 2)) 0)
  + log ((d.cats 3).getD (tensor_to_long (a 3)) 0)
  + log ((d.cats 4).getD (tensor_to_long (a 4)) 0)
  + log ((d.cats 5).getD (tensor_to_long (a 5)) 0)
  + log ((d.cats 6).getD (tensor_to_long (a 6)) 0)
  + log ((d.cats 7).getD (tensor_to_long (a 7)) 0)
  + normal_log_prob log log_sqrt_2pi d.mean.1 d.std.1 (a 8)
  + normal_log_prob log log_sqrt_2pi d.mean.2 d.std.2 (a 9)

/-- C7. Round trip: for normalized categorical distributions with positive
stds, sampling `(action, logp) = sample_action(dists)` and immediately
recomputing `joint_logp_action(dists, action)` against the same distributions
yields exactly the sum of the ten per-component log-probabilities recorded at
sampling time (exact equality in the real-number model). -/
theorem claim_c7_joint_logp_roundtrip (d : ActionDists ℝ) (idx : Fin 8 → ℕ)
    (ε : ℝ × ℝ)
    (hnorm : ∀ i : Fin 8, (d.cats i).sum = 1)
    (hnn : ∀ i : Fin 8, ∀ p ∈ d.cats i, 0 ≤ p)
    (hstd1 : 0 < d.std.1) (hstd2 : 0 < d.std.2)
    (hidx : ∀ i : Fin 8, idx i < (d.cats i).length) :
    joint_logp_action Real.log (Real.log (Real.sqrt (2 * Real.pi))) d
        (sample_action Real.log (Real.log (Real.sqrt (2 * Real.pi))) d idx ε).1
      = ∑ i : Fin 10,
          (sample_action Real.log (Real.log (Real.sqrt (2 * Real.pi))) d idx ε).2 i := by
  have hlong : ∀ n : ℕ, tensor_to_long ((n : ℝ)) = n := by
    intro n
    rw [tensor_to_long, Int.floor_natCast, Int.toNat_natCast]
  have e2 : ((2 : Fin 10) : ℕ) = 2 := rfl
  have e3 : ((3 : Fin 10) : ℕ) = 3 := rfl
  have e4 : ((4 : Fin 10) : ℕ) = 4 := rfl
  have e5 : ((5 : Fin 10) : ℕ) = 5 := rfl
  have e6 : ((6 : Fin 10) : ℕ) = 6 := rfl
  have e7 : ((7 : Fin 10) : ℕ) = 7 := rfl
  have e8 : ((8 : Fin 10) : ℕ) = 8 := rfl
  have e9 : ((9 : Fin 10) : ℕ) = 9 := rfl
  simp only [joint_logp_action, sample_action, sample_multinomial, sample_guassian,
    Fin.sum_univ_succ, Finset.sum_empty, Fin.isValue]
  norm_num [hlong, e2, e3, e4, e5, e6, e7, e8, e9]
  have g2 : (2 : Fin 8) = ⟨2, by norm_num⟩ := rfl
  have g3 : (3 : Fin 8) = ⟨3, by norm_num⟩ := rfl
  have g4 : (4 : Fin 8) = ⟨4, by norm_num⟩ := rfl
  have g5 : (5 : Fin 8) = ⟨5, by norm_num⟩ := rfl
  have g6 : (6 : Fin 8) = ⟨6, by norm_num⟩ := rfl
  have g7 : (7 : Fin 8) = ⟨7, by norm_num⟩ := rfl
  simp only [g2, g3, g4, g5, g6, g7]
  ring

/-- Witness for C7: two-outcome uniform categoricals, standard-normal
continuous components, index 0 drawn everywhere, zero noise. -/
theorem claim_c7_joint_logp_roundtrip_witness :
    (∀ i : Fin 8, ((⟨fun _ => [1/2, 1/2], (0, 0), (1, 1)⟩ :
        ActionDists ℝ).cats i).sum = 1)
    ∧ (∀ i : Fin 8, ∀ p ∈ (⟨fun _ => [1/2, 1/2], (0, 0), (1, 1)⟩ :
        ActionDists ℝ).cats i, 0 ≤ p)
    ∧ (0 < ((⟨fun _ => [1/2, 1/2], (0, 0), (1, 1)⟩ : ActionDists ℝ)).std.1)
    ∧ (0 < ((⟨fun _ => [1/2, 1/2], (0, 0), (1, 1)⟩ : ActionDists ℝ)).std.2)
    ∧ (∀ i : Fin 8, (fun _ : Fin 8 => 0) i <
        ((⟨fun _ => [1/2, 1/2], (0, 0), (1, 1)⟩ : ActionDists ℝ).cats i).length)
    ∧ joint_logp_action Real.log (Real.log (Real.sqrt (2 * Real.pi)))
        (⟨fun _ => [1/2, 1/2], (0, 0), (1, 1)⟩ : ActionDists ℝ)
        (sample_action Real.log (Real.log (Real.sqrt (2 * Real.pi)))
          (⟨fun _ => [1/2, 1/2], (0, 0), (1, 1)⟩ : ActionDists ℝ)
          (fun _ => 0) (0, 0)).1
      = ∑ i : Fin 10,
          (sample_action Real.log (Real.log (Real.sqrt (2 * Real.pi)))
            (⟨fun _ => [1/2, 1/2], (0, 0), (1, 1)⟩ : ActionDists ℝ)
            (fun _ => 0) (0, 0)).2 i :=
  ⟨fun _ => by norm_num,
    fun _ p hp => by
      rcases List.mem_pair.mp hp with h | h <;> rw [h] <;> norm_num,
    by norm_num, by norm_num, fun _ => by norm_num,
    claim_c7_joint_logp_roundtrip
      (⟨fun _ => [1/2, 1/2], (0, 0), (1, 1)⟩ : ActionDists ℝ) (fun _ => 0) (0, 0)
      (fun _ => by norm_num)
      (fun _ p hp => by
        rcases List.mem_pair.mp hp with h | h <;> rw [h] <;> norm_num)
      (by norm_num) (by norm_num) (fun _ => by norm_num)⟩

/-! ### ICM intrinsic reward (src/mineagent/learning/icm.py)

`intrinsic_reward` runs the forward-dynamics network under
`with torch.no_grad():`, takes `F.mse_loss` against the next embedding,
multiplies by the configured scaling factor and returns `.item()` (a plain
float).  The autograd tape is modelled explicitly: a forward pass run with
gradients enabled grows the graph, one under `no_grad` leaves the state
untouched. -/

/-- Embedding of `F.mse_loss(input, target)` (mean reduction): mean of the
elementwise squared differences. -/
def mse_loss {α : Type} [LinearOrderedField α] (input target : List α) : α :=
  (List.zipWith (fun p t => (p - t) ^ 2) input target).sum / (input.length : α)

/-- The state torch threads through a module call: the module parameters plus
the autograd graph (abstracted to its node count). -/
structure AutogradState (θ : Type) where
  params : θ
  graph_nodes : ℕ

/-- A forward pass of the forward-dynamics module: returns the prediction
and, when gradients are enabled, records the pass on the autograd graph;
under `torch.no_grad()` (`grad_mode = false`) the state is untouched. -/
def forward_dynamics_call {θ E A2 : Type} (grad_mode : Bool)
    (forward_dynamics : θ → E → A2 → E) (st : AutogradState θ)
    (embedding : E) (action : A2) : E × AutogradState θ :=
  (forward_dynamics st.params embedding action,
    if grad_mode then { st with graph_nodes := st.graph_nodes + 1 } else st)

namespace ICM

/-- Embedding of `ICM.intrinsic_reward`: a `no_grad` forward pass of the
forward-dynamics predictor on `(embedding, action)`, then
`scaling_factor * mse_loss(prediction, next_embedding)`.  The caller's
gradient mode is irrelevant: `with torch.no_grad()` forces it off inside. -/
def intrinsic_reward {θ A2 α : Type} [LinearOrderedField α]
    (scaling_factor : α) (forward_dynamics : θ → List α → A2 → List α)
    (caller_grad_mode : Bool) (st : AutogradState θ) (embedding : List α)
    (action : A2) (next_embedding : List α) : α × AutogradState θ :=
  let call := forward_dynamics_call false forward_dynamics st embedding action
  (scaling_factor * mse_loss call.1 next_embedding, call.2)

end ICM

theorem mse_loss_nonneg (input target : List ℝ) : 0 ≤ mse_loss input target := by
  apply div_nonneg _ (Nat.cast_nonneg _)
  induction input generalizing target with
  | nil => simp
  | cons p ps ih =>
      cases target with
      | nil => simp
      | cons t ts =>
          rw [List.zipWith_cons_cons, List.sum_cons]
          exact add_nonneg (sq_nonneg _) (ih ts)

/-- C8. For every embedding, action and next embedding, `intrinsic_reward`
returns `scaling_factor * mse_loss(forward_dynamics(embedding, action),
next_embedding)`, which is non-negative whenever the configured scaling
factor is positive; the call leaves the autograd state — and in particular
the forward-dynamics parameters — unchanged, and its value does not depend
on whether the caller has gradients enabled. -/
theorem claim_c8_intrinsic_reward {θ A2 : Type} (scaling_factor : ℝ)
    (forward_dynamics : θ → List ℝ → A2 → List ℝ) (caller_grad_mode : Bool)
    (st : AutogradState θ) (embedding : List ℝ) (action : A2)
    (next_embedding : List ℝ) (hscale : 0 < scaling_factor) :
    (ICM.intrinsic_reward scaling_factor forward_dynamics caller_grad_mode st
        embedding action next_embedding).1
      = scaling_factor *
          mse_loss (forward_dynamics st.params embedding action) next_embedding
    ∧ 0 ≤ (ICM.intrinsic_reward scaling_factor forward_dynamics caller_grad_mode
        st embedding action next_embedding).1
    ∧ (ICM.intrinsic_reward scaling_factor forward_dynamics caller_grad_mode st
        embedding action next_embedding).2 = st
    ∧ (ICM.intrinsic_reward scaling_factor forward_dynamics caller_grad_mode st
        embedding action next_embedding).2.params = st.params
    ∧ (ICM.intrinsic_reward scaling_factor forward_dynamics true st embedding
        action next_embedding).1
      = (ICM.intrinsic_reward scaling_factor forward_dynamics false st embedding
        action next_embedding).1 := by
  refine ⟨rfl, ?_, rfl, rfl, rfl⟩
  exact mul_nonneg (le_of_lt hscale) (mse_loss_nonneg _ _)

/-- Witness for C8: identity forward dynamics on the embedding `[3, 4]`,
next embedding `[0, 0]`, scaling factor 2. -/
theorem claim_c8_intrinsic_reward_witness :
    (0 : ℝ) < 2
    ∧ ((ICM.intrinsic_reward (2 : ℝ) (fun (_ : Unit) e (_ : Unit) => e) true
          ⟨(), 0⟩ [3, 4] () [0, 0]).1
        = 2 * mse_loss ((fun (_ : Unit) e (_ : Unit) => e) () [(3 : ℝ), 4] ()) [0, 0]
      ∧ 0 ≤ (ICM.intrinsic_reward (2 : ℝ) (fun (_ : Unit) e (_ : Unit) => e) true
          ⟨(), 0⟩ [3, 4] () [0, 0]).1
      ∧ (ICM.intrinsic_reward (2 : ℝ) (fun (_ : Unit) e (_ : Unit) => e) true
          ⟨(), 0⟩ [3, 4] () [0, 0]).2 = ⟨(), 0⟩
      ∧ (ICM.intrinsic_reward (2 : ℝ) (fun (_ : Unit) e (_ : Unit) => e) true
          ⟨(), 0⟩ [3, 4] () [0, 0]).2.params = (⟨(), 0⟩ : AutogradState Unit).params
      ∧ (ICM.intrinsic_reward (2 : ℝ) (fun (_ : Unit) e (_ : Unit) => e) true
          ⟨(), 0⟩ [3, 4] () [0, 0]).1
        = (ICM.intrinsic_reward (2 : ℝ) (fun (_ : Unit) e (_ : Unit) => e) false
          ⟨(), 0⟩ [3, 4] () [0, 0]).1) :=
  ⟨by norm_num,
    claim_c8_intrinsic_reward (2 : ℝ) (fun (_ : Unit) e (_ : Unit) => e) true
      ⟨(), 0⟩ [3, 4] () [0, 0] (by norm_num)⟩

/-! ### ICM inverse-dynamics loss (src/mineagent/learning/icm.py)

`_compute_inverse_dynamics_loss` sums, over the 8 categorical action
components, `F.nll_loss(torch.log(actions_pred[i]), actions[:, i])` and, for
the two continuous coordinates, `F.gaussian_nll_loss(actions_pred[8][:, j],
actions[:, 8+j], actions_pred[9][:, j] ** 2)`.  `F.gaussian_nll_loss` uses
its torch defaults `full=False` (no `½·log 2π` constant) and `eps = 1e-6`
(the variance is clamped from below before use). -/

/-- Embedding of `F.nll_loss(input, target)` (mean reduction, `input` rows
are per-class log-values): the mean over rows of the negated entry at the
target index. -/
def nll_loss {α : Type} [LinearOrderedField α] (input : List (List α))
    (target : List ℕ) : α :=
  -(List.zipWith (fun row t => row.getD t 0) input target).sum /
    (input.length : α)

/-- Per-row terms of `F.gaussian_nll_loss(input, target, var)` with torch's
defaults: `0.5 * (log (max var eps) + (input - target)^2 / max var eps)`,
`eps = 1e-6`. -/
def gaussian_nll_terms {α : Type} [LinearOrderedField α] (log : α → α) :
    List α → List α → List α → List α
  | i :: is, t :: ts, v :: vs =>
      1 / 2 * (log (max v (1 / 1000000)) + (i - t) ^ 2 / max v (1 / 1000000))
        :: gaussian_nll_terms log is ts vs
  | _, _, _ => []

/-- Embedding of `F.gaussian_nll_loss` (mean reduction). -/
def gaussian_nll_loss {α : Type} [LinearOrderedField α] (log : α → α)
    (input target var : List α) : α :=
  (gaussian_nll_terms log input target var).sum / (input.length : α)

/-- One row of the stacked action tensor, typed: the 8 discrete indices
(`actions[:, 0..7]`, stored as floats, used as class indices) and the two
continuous coordinates (`actions[:, 8..9]`). -/
structure ActionRow (α : Type) where
  disc : Fin 8 → ℕ
  cont : α × α

/-- Embedding of `ICM._compute_inverse_dynamics_loss`: `actions_pred` is the
per-row inverse-dynamics output (8 categorical probability vectors plus
mean/std pairs, same shape as the action distributions); the loss is the sum
of the 8 categorical `nll_loss(log(probs), index)` terms and the two
`gaussian_nll_loss(mean, coordinate, std**2)` terms. -/
def compute_inverse_dynamics_loss {α : Type} [LinearOrderedField α]
    (log : α → α) (actions_pred : List (ActionDists α))
    (actions : List (ActionRow α)) : α :=
  nll_loss (actions_pred.map fun p => (p.cats 0).map log)
      (actions.map fun a => a.disc 0)
    + nll_loss (actions_pred.map fun p => (p.cats 1).map log)
      (actions.map fun a => a.disc 1)
    + nll_loss (actions_pred.map fun p => (p.cats 2).map log)
      (actions.map fun a => a.disc 2)
    + nll_loss (actions_pred.map fun p => (p.cats 3).map log)
      (actions.map fun a => a.disc 3)
    + nll_loss (actions_pred.map fun p => (p.cats 4).map log)
      (actions.map fun a => a.disc 4)
    + nll_loss (actions_pred.map fun p => (p.cats 5).map log)
      (actions.map fun a => a.disc 5)
    + nll_loss (actions_pred.map fun p => (p.cats 6).map log)
      (actions.map fun a => a.disc 6)
    + nll_loss (actions_pred.map fun p => (p.cats 7).map log)
      (actions.map fun a => a.disc 7)
    + gaussian_nll_loss log (actions_pred.map fun p => p.mean.1)
      (actions.map fun a => a.cont.1) (actions_pred.map fun p => p.std.1 ^ 2)
    + gaussian_nll_loss log (actions_pred.map fun p => p.mean.2)
      (actions.map fun a => a.cont.2) (actions_pred.map fun p => p.std.2 ^ 2)

/-- The claim's categorical term, written from the spec's words: the
classification negative log-likelihood of the probability the model assigns
to the actual discrete action taken, averaged over the batch. -/
def spec_categorical_nll {α : Type} [LinearOrderedField α] (log : α → α)
    (probs : List (List α)) (target : List ℕ) : α :=
  (List.zipWith (fun row t => -(log (row.getD t 0))) probs target).sum /
    (probs.length : α)

/-- Per-row terms of the claim's Gaussian negative log-likelihood (torch
`full=False` convention, i.e. without the `½·log 2π` constant) of the actual
coordinate `x` under predicted mean `μ` and predicted variance `v`. -/
def spec_gaussian_nll_terms {α : Type} [LinearOrderedField α] (log : α → α) :
    List α → List α → List α → List α
  | μ :: ms, x :: xs, v :: vs =>
      1 / 2 * (log v + (x - μ) ^ 2 / v) :: spec_gaussian_nll_terms log ms xs vs
  | _, _, _ => []

/-- The claim's Gaussian negative log-likelihood term, batch-averaged. -/
def spec_gaussian_nll {α : Type} [LinearOrderedField α] (log : α → α)
    (means xs vars : List α) : α :=
  (spec_gaussian_nll_terms log means xs vars).sum / (means.length : α)

theorem zipWith_congr_mem {β γ δ : Type} (f g : β → γ → δ) :
    ∀ (l1 : List β) (l2 : List γ),
    (∀ p ∈ l1.zip l2, f p.1 p.2 = g p.1 p.2) →
    List.zipWith f l1 l2 = List.zipWith g l1 l2
  | [], _, _ => by simp
  | _ :: _, [], _ => by simp
  | a :: as, b :: bs, h => by
      rw [List.zipWith_cons_cons, List.zipWith_cons_cons,
        h (a, b) (by simp [List.zip_cons_cons]),
        zipWith_congr_mem f g as bs
          (fun p hp => h p (by simp [List.zip_cons_cons]; right; exact hp))]

theorem getD_map_of_lt {β γ : Type} (g : β → γ) (l : List β) (t : ℕ)
    (d1 : β) (d2 : γ) (h : t < l.length) :
    (l.map g).getD t d2 = g (l.getD t d1) := by
  rw [List.getD_eq_getElem?_getD, List.getD_eq_getElem?_getD, List.getElem?_map,
    List.getElem?_eq_getElem h]
  simp

theorem sum_map_neg_eq {α : Type} [LinearOrderedField α] (l : List α) :
    (l.map fun x => -x).sum = -l.sum := by
  induction l with
  | nil => simp
  | cons a l ih => simp [ih]; ring

/-- The source's `F.nll_loss(torch.log(probs), target)` equals the spec's
classification NLL whenever every target index is in range. -/
theorem nll_loss_map_log_eq_spec {α : Type} [LinearOrderedField α]
    (log : α → α) (probs : List (List α)) (target : List ℕ)
    (h : ∀ p ∈ probs.zip target, p.2 < p.1.length) :
    nll_loss (probs.map (List.map log)) target =
      spec_categorical_nll log probs target := by
  unfold nll_loss spec_categorical_nll
  rw [List.length_map]
  have hz : List.zipWith (fun row t => row.getD t 0) (probs.map (List.map log))
      target = List.zipWith (fun row t => log (row.getD t 0)) probs target := by
    rw [List.zipWith_map_left]
    exact zipWith_congr_mem _ _ probs target
      (fun p hp => getD_map_of_lt log p.1 p.2 0 0 (h p hp))
  have hneg : List.zipWith (fun row t => -(log (row.getD t 0))) probs target
      = (List.zipWith (fun row t => log (row.getD t 0)) probs target).map
          fun x => -x := by
    rw [List.map_zipWith]
  rw [hz, hneg, sum_map_neg_eq, neg_div]

/-- The source's clamped Gaussian terms are the spec's terms evaluated at the
eps-clamped variances. -/
theorem gaussian_terms_eq_spec_clamped {α : Type} [LinearOrderedField α]
    (log : α → α) (input : List α) :
    ∀ (target var : List α),
    gaussian_nll_terms log input target var =
      spec_gaussian_nll_terms log input target
        (var.map fun v => max v (1 / 1000000)) := by
  induction input with
  | nil => intro target var; rfl
  | cons i is ih =>
      intro target var
      cases target with
      | nil => rfl
      | cons t ts =>
          cases var with
          | nil => rfl
          | cons v vs =>
              rw [List.map_cons]
              show 1 / 2 * (log (max v (1 / 1000000))
                    + (i - t) ^ 2 / max v (1 / 1000000))
                  :: gaussian_nll_terms log is ts vs
                = 1 / 2 * (log (max v (1 / 1000000))
                    + (t - i) ^ 2 / max v (1 / 1000000))
                  :: spec_gaussian_nll_terms log is ts
                      (vs.map fun v2 => max v2 (1 / 1000000))
              rw [ih ts vs]
              congr 2
              ring

theorem gaussian_nll_loss_eq_spec_clamped {α : Type} [LinearOrderedField α]
    (log : α → α) (input target var : List α) :
    gaussian_nll_loss log input target var =
      spec_gaussian_nll log input target
        (var.map fun v => max v (1 / 1000000)) := by
  unfold gaussian_nll_loss spec_gaussian_nll
  rw [gaussian_terms_eq_spec_clamped]

theorem map_max_eps_eq_self {α : Type} [LinearOrderedField α] (var : List α)
    (h : ∀ v ∈ var, (1 / 1000000 : α) ≤ v) :
    (var.map fun v => max v (1 / 1000000)) = var := by
  have h2 : ∀ v ∈ var, max v (1 / 1000000) = id v :=
    fun v hv => max_eq_left (h v hv)
  rw [List.map_congr_left h2, List.map_id]

/-- C9 (amended).  For a trajectory of length `T ≥ 2`, `ICM`'s finalize step
produces `features = features[0..T-2]`, `next_features = features[1..T-1]`,
`actions = actions[0..T-2]` (one-step-shifted alignment, `T - 1` rows each);
and the inverse-dynamics loss equals the sum over the 8 categorical
components of the classification NLL of the probability assigned to the
actual action, plus, for the 2 continuous coordinates, the Gaussian NLL
(torch's constant-free form) under the predicted mean and the predicted
variance *clamped from below by torch's `eps = 1e-6`*; with the exact
(unclamped) variance `std²` exactly when every predicted variance is at
least `1e-6`. -/
theorem claim_c9_icm_alignment_inverse_loss {F A L : Type} (N : ℕ)
    (fs : List F) (as : List A) (rs irs vs : List ℚ) (ls : List L)
    (hT : 2 ≤ fs.length) (has : as.length = fs.length)
    (preds : List (ActionDists ℝ)) (acts : List (ActionRow ℝ))
    (hrange : ∀ p ∈ preds.zip acts, ∀ i : Fin 8,
      p.2.disc i < (p.1.cats i).length) :
    (∃ s : ICMSample F A,
      ICM.finalize_trajectory
          (⟨N, fs, as, rs, irs, vs, ls⟩ : TrajectoryBuffer F A L ℚ) = .ok s
      ∧ s.features = fs.dropLast
      ∧ s.next_features = fs.drop 1
      ∧ s.actions = as.dropLast
      ∧ s.features.length = fs.length - 1
      ∧ s.next_features.length = fs.length - 1
      ∧ s.actions.length = fs.length - 1)
    ∧ compute_inverse_dynamics_loss Real.log preds acts
      = spec_categorical_nll Real.log (preds.map fun p => p.cats 0)
          (acts.map fun a => a.disc 0)
        + spec_categorical_nll Real.log (preds.map fun p => p.cats 1)
          (acts.map fun a => a.disc 1)
        + spec_categorical_nll Real.log (preds.map fun p => p.cats 2)
          (acts.map fun a => a.disc 2)
        + spec_categorical_nll Real.log (preds.map fun p => p.cats 3)
          (acts.map fun a => a.disc 3)
        + spec_categorical_nll Real.log (preds.map fun p => p.cats 4)
          (acts.map fun a => a.disc 4)
        + spec_categorical_nll Real.log (preds.map fun p => p.cats 5)
          (acts.map fun a => a.disc 5)
        + spec_categorical_nll Real.log (preds.map fun p => p.cats 6)
          (acts.map fun a => a.disc 6)
        + spec_categorical_nll Real.log (preds.map fun p => p.cats 7)
          (acts.map fun a => a.disc 7)
        + spec_gaussian_nll Real.log (preds.map fun p => p.mean.1)
          (acts.map fun a => a.cont.1)
          ((preds.map fun p => p.std.1 ^ 2).map fun v => max v (1 / 1000000))
        + spec_gaussian_nll Real.log (preds.map fun p => p.mean.2)
          (acts.map fun a => a.cont.2)
          ((preds.map fun p => p.std.2 ^ 2).map fun v => max v (1 / 1000000))
    ∧ ((∀ p ∈ preds, (1 / 1000000 : ℝ) ≤ p.std.1 ^ 2
          ∧ (1 / 1000000 : ℝ) ≤ p.std.2 ^ 2) →
        compute_inverse_dynamics_loss Real.log preds acts
          = spec_categorical_nll Real.log (preds.map fun p => p.cats 0)
              (acts.map fun a => a.disc 0)
            + spec_categorical_nll Real.log (preds.map fun p => p.cats 1)
              (acts.map fun a => a.disc 1)
            + spec_categorical_nll Real.log (preds.map fun p => p.cats 2)
              (acts.map fun a => a.disc 2)
            + spec_categorical_nll Real.log (preds.map fun p => p.cats 3)
              (acts.map fun a => a.disc 3)
            + spec_categorical_nll Real.log (preds.map fun p => p.cats 4)
              (acts.map fun a => a.disc 4)
            + spec_categorical_nll Real.log (preds.map fun p => p.cats 5)
              (acts.map fun a => a.disc 5)
            + spec_categorical_nll Real.log (preds.map fun p => p.cats 6)
              (acts.map fun a => a.disc 6)
            + spec_categorical_nll Real.log (preds.map fun p => p.cats 7)
              (acts.map fun a => a.disc 7)
            + spec_gaussian_nll Real.log (preds.map fun p => p.mean.1)
              (acts.map fun a => a.cont.1) (preds.map fun p => p.std.1 ^ 2)
            + spec_gaussian_nll Real.log (preds.map fun p => p.mean.2)
              (acts.map fun a => a.cont.2) (preds.map fun p => p.std.2 ^ 2)) := by
  have hcat : ∀ i : Fin 8,
      nll_loss (preds.map fun p => (p.cats i).map Real.log)
          (acts.map fun a => a.disc i)
        = spec_categorical_nll Real.log (preds.map fun p => p.cats i)
          (acts.map fun a => a.disc i) := by
    intro i
    have hr2 : ∀ q ∈ (preds.map fun p => p.cats i).zip
        (acts.map fun a => a.disc i), q.2 < q.1.length := by
      intro q hq
      rw [List.zip_map] at hq
      obtain ⟨pr, hpr, hq2⟩ := List.mem_map.mp hq
      rw [← hq2]
      exact hrange pr hpr i
    have hmm : preds.map (fun p => (p.cats i).map Real.log)
        = (preds.map fun p => p.cats i).map (List.map Real.log) := by
      rw [List.map_map]
      rfl
    rw [hmm]
    exact nll_loss_map_log_eq_spec Real.log _ _ hr2
  have hb : compute_inverse_dynamics_loss Real.log preds acts
      = spec_categorical_nll Real.log (preds.map fun p => p.cats 0)
          (acts.map fun a => a.disc 0)
        + spec_categorical_nll Real.log (preds.map fun p => p.cats 1)
          (acts.map fun a => a.disc 1)
        + spec_categorical_nll Real.log (preds.map fun p => p.cats 2)
          (acts.map fun a => a.disc 2)
        + spec_categorical_nll Real.log (preds.map fun p => p.cats 3)
          (acts.map fun a => a.disc 3)
        + spec_categorical_nll Real.log (preds.map fun p => p.cats 4)
          (acts.map fun a => a.disc 4)
        + spec_categorical_nll Real.log (preds.map fun p => p.cats 5)
          (acts.map fun a => a.disc 5)
        + spec_categorical_nll Real.log (preds.map fun p => p.cats 6)
          (acts.map fun a => a.disc 6)
        + spec_categorical_nll Real.log (preds.map fun p => p.cats 7)
          (acts.map fun a => a.disc 7)
        + spec_gaussian_nll Real.log (preds.map fun p => p.mean.1)
          (acts.map fun a => a.cont.1)
          ((preds.map fun p => p.std.1 ^ 2).map fun v => max v (1 / 1000000))
        + spec_gaussian_nll Real.log (preds.map fun p => p.mean.2)
          (acts.map fun a => a.cont.2)
          ((preds.map fun p => p.std.2 ^ 2).map fun v => max v (1 / 1000000)) := by
    rw [compute_inverse_dynamics_loss, hcat 0, hcat 1, hcat 2, hcat 3, hcat 4,
      hcat 5, hcat 6, hcat 7, gaussian_nll_loss_eq_spec_clamped,
      gaussian_nll_loss_eq_spec_clamped]
  refine ⟨?_, hb, ?_⟩
  · have hstack : ∀ {β2 : Type} (l : List β2), l ≠ [] → torchStack l = .ok l := by
      intro β2 l hl
      rw [torchStack, if_neg (by simpa using hl)]
    have hfs : fs.dropLast ≠ [] := by
      intro hemp
      have := List.length_dropLast fs
      rw [hemp] at this
      simp at this
      omega
    have hfs2 : fs.drop 1 ≠ [] := by
      intro hemp
      have := List.length_drop 1 fs
      rw [hemp] at this
      simp at this
      omega
    have has2 : as.dropLast ≠ [] := by
      intro hemp
      have := List.length_dropLast as
      rw [hemp] at this
      simp at this
      omega
    refine ⟨⟨fs.dropLast, fs.drop 1, as.dropLast⟩, ?_, rfl, rfl, rfl, ?_, ?_, ?_⟩
    · simp only [ICM.finalize_trajectory, hstack fs.dropLast hfs,
        hstack (fs.drop 1) hfs2, hstack as.dropLast has2]
    · simp
    · simp
    · simp [has]
  · intro hvar
    rw [hb, map_max_eps_eq_self, map_max_eps_eq_self]
    · intro v hv
      obtain ⟨p, hp, hv2⟩ := List.mem_map.mp hv
      rw [← hv2]
      exact (hvar p hp).2
    · intro v hv
      obtain ⟨p, hp, hv2⟩ := List.mem_map.mp hv
      rw [← hv2]
      exact (hvar p hp).1

/-- Counterexample to C9 as stated: a single-row batch, all categorical
probabilities concentrated (`log 1 = 0` contributions), predicted std
`1/10000` on the x-coordinate so that `std² = 1e-8 < eps = 1e-6`.  Torch's
`gaussian_nll_loss` clamps the variance to `1e-6`, so the code's loss is
`½·log 1e-6` while the claim's formula with the exact predicted variance
`std²` gives `½·log 1e-8`; the two differ. -/
theorem claim_c9_counterexample :
    compute_inverse_dynamics_loss Real.log
        [⟨fun _ => [1], (0, 0), (1 / 10000, 1)⟩] [⟨fun _ => 0, (0, 0)⟩]
      ≠ spec_categorical_nll Real.log
          (([⟨fun _ => [1], (0, 0), (1 / 10000, 1)⟩] :
            List (ActionDists ℝ)).map fun p => p.cats 0)
          (([⟨fun _ => 0, (0, 0)⟩] : List (ActionRow ℝ)).map fun a => a.disc 0)
        + spec_categorical_nll Real.log
          (([⟨fun _ => [1], (0, 0), (1 / 10000, 1)⟩] :
            List (ActionDists ℝ)).map fun p => p.cats 1)
          (([⟨fun _ => 0, (0, 0)⟩] : List (ActionRow ℝ)).map fun a => a.disc 1)
        + spec_categorical_nll Real.log
          (([⟨fun _ => [1], (0, 0), (1 / 10000, 1)⟩] :
            List (ActionDists ℝ)).map fun p => p.cats 2)
          (([⟨fun _ => 0, (0, 0)⟩] : List (ActionRow ℝ)).map fun a => a.disc 2)
        + spec_categorical_nll Real.log
          (([⟨fun _ => [1], (0, 0), (1 / 10000, 1)⟩] :
            List (ActionDists ℝ)).map fun p => p.cats 3)
          (([⟨fun _ => 0, (0, 0)⟩] : List (ActionRow ℝ)).map fun a => a.disc 3)
        + spec_categorical_nll Real.log
          (([⟨fun _ => [1], (0, 0), (1 / 10000, 1)⟩] :
            List (ActionDists ℝ)).map fun p => p.cats 4)
          (([⟨fun _ => 0, (0, 0)⟩] : List (ActionRow ℝ)).map fun a => a.disc 4)
        + spec_categorical_nll Real.log
          (([⟨fun _ => [1], (0, 0), (1 / 10000, 1)⟩] :
            List (ActionDists ℝ)).map fun p => p.cats 5)
          (([⟨fun _ => 0, (0, 0)⟩] : List (ActionRow ℝ)).map fun a => a.disc 5)
        + spec_categorical_nll Real.log
          (([⟨fun _ => [1], (0, 0), (1 / 10000, 1)⟩] :
            List (ActionDists ℝ)).map fun p => p.cats 6)
          (([⟨fun _ => 0, (0, 0)⟩] : List (ActionRow ℝ)).map fun a => a.disc 6)
        + spec_categorical_nll Real.log
          (([⟨fun _ => [1], (0, 0), (1 / 10000, 1)⟩] :
            List (ActionDists ℝ)).map fun p => p.cats 7)
          (([⟨fun _ => 0, (0, 0)⟩] : List (ActionRow ℝ)).map fun a => a.disc 7)
        + spec_gaussian_nll Real.log
          (([⟨fun _ => [1], (0, 0), (1 / 10000, 1)⟩] :
            List (ActionDists ℝ)).map fun p => p.mean.1)
          (([⟨fun _ => 0, (0, 0)⟩] : List (ActionRow ℝ)).map fun a => a.cont.1)
          (([⟨fun _ => [1], (0, 0), (1 / 10000, 1)⟩] :
            List (ActionDists ℝ)).map fun p => p.std.1 ^ 2)
        + spec_gaussian_nll Real.log
          (([⟨fun _ => [1], (0, 0), (1 / 10000, 1)⟩] :
            List (ActionDists ℝ)).map fun p => p.mean.2)
          (([⟨fun _ => 0, (0, 0)⟩] : List (ActionRow ℝ)).map fun a => a.cont.2)
          (([⟨fun _ => [1], (0, 0), (1 / 10000, 1)⟩] :
            List (ActionDists ℝ)).map fun p => p.std.2 ^ 2) := by
  have hcat : spec_categorical_nll Real.log [[(1 : ℝ)]] [0] = 0 := by
    simp [spec_categorical_nll, Real.log_one]
  have hg2 : spec_gaussian_nll Real.log [(0 : ℝ)] [0] [(1 : ℝ) ^ 2] = 0 := by
    simp [spec_gaussian_nll, spec_gaussian_nll_terms, Real.log_one]
  have hgx : spec_gaussian_nll Real.log [(0 : ℝ)] [0] [(1 / 10000 : ℝ) ^ 2]
      = 1 / 2 * Real.log (1 / 100000000) := by
    have h100 : ((1 / 10000 : ℝ)) ^ 2 = 1 / 100000000 := by norm_num
    simp only [spec_gaussian_nll, spec_gaussian_nll_terms, h100, List.sum_cons,
      List.sum_nil, List.length_cons, List.length_nil]
    norm_num
  have hL : compute_inverse_dynamics_loss Real.log
      [(⟨fun _ => [1], (0, 0), (1 / 10000, 1)⟩ : ActionDists ℝ)]
      [(⟨fun _ => 0, (0, 0)⟩ : ActionRow ℝ)]
      = 1 / 2 * Real.log (1 / 1000000) := by
    have e1 : max ((1 / 10000 : ℝ) ^ 2) (1 / 1000000) = 1 / 1000000 :=
      max_eq_right (by norm_num)
    have e2 : max ((1 : ℝ) ^ 2) (1 / 1000000) = 1 := by
      rw [one_pow]
      exact max_eq_left (by norm_num)
    simp only [compute_inverse_dynamics_loss, nll_loss, gaussian_nll_loss,
      gaussian_nll_terms, List.map_cons, List.map_nil, e1, e2, Real.log_one,
      List.sum_cons, List.sum_nil, List.length_cons, List.length_nil,
      List.zipWith_cons_cons, List.zipWith_nil_right, List.getD_cons_zero]
    norm_num
  intro h
  rw [hL] at h
  simp only [List.map_cons, List.map_nil] at h
  rw [hcat, hgx, hg2] at h
  simp only [zero_add, add_zero] at h
  have hlt : Real.log (1 / 100000000) < Real.log (1 / 1000000) :=
    Real.log_lt_log (by norm_num) (by norm_num)
  have h2 := mul_left_cancel₀ (show (1 / 2 : ℝ) ≠ 0 by norm_num) h
  linarith

/-- Witness for C9 (amended): a length-2 trajectory and a single-row batch
with unit predicted stds (variance 1 ≥ eps), exercising the exact-variance
branch. -/
theorem claim_c9_icm_alignment_inverse_loss_witness :
    2 ≤ ([(0 : ℚ), 1]).length
    ∧ ([(0 : ℚ), 0]).length = ([(0 : ℚ), 1]).length
    ∧ (∀ p ∈ ([(⟨fun _ => [1], (0, 0), (1, 1)⟩ : ActionDists ℝ)]).zip
          [(⟨fun _ => 0, (0, 0)⟩ : ActionRow ℝ)],
        ∀ i : Fin 8, p.2.disc i < (p.1.cats i).length)
    ∧ (∀ p ∈ [(⟨fun _ => [1], (0, 0), (1, 1)⟩ : ActionDists ℝ)],
        (1 / 1000000 : ℝ) ≤ p.std.1 ^ 2 ∧ (1 / 1000000 : ℝ) ≤ p.std.2 ^ 2)
    ∧ compute_inverse_dynamics_loss Real.log
        [(⟨fun _ => [1], (0, 0), (1, 1)⟩ : ActionDists ℝ)]
        [(⟨fun _ => 0, (0, 0)⟩ : ActionRow ℝ)]
      = spec_categorical_nll Real.log
          (([(⟨fun _ => [1], (0, 0), (1, 1)⟩ : ActionDists ℝ)]).map
            fun p => p.cats 0)
          (([(⟨fun _ => 0, (0, 0)⟩ : ActionRow ℝ)]).map fun a => a.disc 0)
        + spec_categorical_nll Real.log
          (([(⟨fun _ => [1], (0, 0), (1, 1)⟩ : ActionDists ℝ)]).map
            fun p => p.cats 1)
          (([(⟨fun _ => 0, (0, 0)⟩ : ActionRow ℝ)]).map fun a => a.disc 1)
        + spec_categorical_nll Real.log
          (([(⟨fun _ => [1], (0, 0), (1, 1)⟩ : ActionDists ℝ)]).map
            fun p => p.cats 2)
          (([(⟨fun _ => 0, (0, 0)⟩ : ActionRow ℝ)]).map fun a => a.disc 2)
        + spec_categorical_nll Real.log
          (([(⟨fun _ => [1], (0, 0), (1, 1)⟩ : ActionDists ℝ)]).map
            fun p => p.cats 3)
          (([(⟨fun _ => 0, (0, 0)⟩ : ActionRow ℝ)]).map fun a => a.disc 3)
        + spec_categorical_nll Real.log
          (([(⟨fun _ => [1], (0, 0), (1, 1)⟩ : ActionDists ℝ)]).map
            fun p => p.cats 4)
          (([(⟨fun _ => 0, (0, 0)⟩ : ActionRow ℝ)]).map fun a => a.disc 4)
        + spec_categorical_nll Real.log
          (([(⟨fun _ => [1], (0, 0), (1, 1)⟩ : ActionDists ℝ)]).map
            fun p => p.cats 5)
          (([(⟨fun _ => 0, (0, 0)⟩ : ActionRow ℝ)]).map fun a => a.disc 5)
        + spec_categorical_nll Real.log
          (([(⟨fun _ => [1], (0, 0), (1, 1)⟩ : ActionDists ℝ)]).map
            fun p => p.cats 6)
          (([(⟨fun _ => 0, (0, 0)⟩ : ActionRow ℝ)]).map fun a => a.disc 6)
        + spec_categorical_nll Real.log
          (([(⟨fun _ => [1], (0, 0), (1, 1)⟩ : ActionDists ℝ)]).map
            fun p => p.cats 7)
          (([(⟨fun _ => 0, (0, 0)⟩ : ActionRow ℝ)]).map fun a => a.disc 7)
        + spec_gaussian_nll Real.log
          (([(⟨fun _ => [1], (0, 0), (1, 1)⟩ : ActionDists ℝ)]).map
            fun p => p.mean.1)
          (([(⟨fun _ => 0, (0, 0)⟩ : ActionRow ℝ)]).map fun a => a.cont.1)
          (([(⟨fun _ => [1], (0, 0), (1, 1)⟩ : ActionDists ℝ)]).map
            fun p => p.std.1 ^ 2)
        + spec_gaussian_nll Real.log
          (([(⟨fun _ => [1], (0, 0), (1, 1)⟩ : ActionDists ℝ)]).map
            fun p => p.mean.2)
          (([(⟨fun _ => 0, (0, 0)⟩ : ActionRow ℝ)]).map fun a => a.cont.2)
          (([(⟨fun _ => [1], (0, 0), (1, 1)⟩ : ActionDists ℝ)]).map
            fun p => p.std.2 ^ 2) :=
  ⟨by norm_num, by norm_num,
    by
      intro p hp i
      have hp2 : p = ((⟨fun _ => [1], (0, 0), (1, 1)⟩ : ActionDists ℝ),
          (⟨fun _ => 0, (0, 0)⟩ : ActionRow ℝ)) := by
        simpa using hp
      rw [hp2]
      simp,
    by
      intro p hp
      have hp2 : p = (⟨fun _ => [1], (0, 0), (1, 1)⟩ : ActionDists ℝ) := by
        simpa using hp
      rw [hp2]
      norm_num,
    (claim_c9_icm_alignment_inverse_loss 5 [(0 : ℚ), 1] [(0 : ℚ), 0]
        [0, 0] [0, 0] [0, 0] [(0 : ℚ), 0] (by norm_num) (by norm_num)
        [(⟨fun _ => [1], (0, 0), (1, 1)⟩ : ActionDists ℝ)]
        [(⟨fun _ => 0, (0, 0)⟩ : ActionRow ℝ)]
        (by
          intro p hp i
          have hp2 : p = ((⟨fun _ => [1], (0, 0), (1, 1)⟩ : ActionDists ℝ),
              (⟨fun _ => 0, (0, 0)⟩ : ActionRow ℝ)) := by
            simpa using hp
          rw [hp2]
          simp)).2.2
      (by
        intro p hp
        have hp2 : p = (⟨fun _ => [1], (0, 0), (1, 1)⟩ : ActionDists ℝ) := by
          simpa using hp
        rw [hp2]
        norm_num)⟩

end MineAgent
